import Mathlib

/-!
Verification of the PII-redaction guardrail `check_for_confidential_info`
from `src/rag_system/crew.py`.

The guardrail stringifies a task result, searches it for two fixed regular
expressions, globally replaces matches by fixed mask tokens, and returns a
`(accepted, payload)` verdict.  The two patterns from the source are

  uae_phone_numbers_pattern = r"\+971\s?[5-9]\d\s?\d{7}"
  uae_national_id_pattern   = r"^784[ .-]?\d{4}[ .-]?\d{7}[ .-]?\d{1}$"

The embedding below compiles each pattern into an executable backtracking
matcher over `List Char`, mirroring Python `re` semantics for these
constructs: greedy `?` with backtracking, `re.search` scanning all start
positions, `re.sub` replacing every non-overlapping leftmost match, `^`
matching only at the start of the string (no MULTILINE flag), and `$`
matching at the end of the string or just before a single trailing newline.
`\s` and `\d` are modelled by their ASCII character sets.
-/

/-- The ASCII character set of Python's `\s`. -/
def isPySpace (c : Char) : Bool :=
  c == ' ' || c == '\t' || c == '\n' || c == '\r' || c == '\x0b' || c == '\x0c'

/-- The ASCII character set of Python's `\d`. -/
def isDigitCh (c : Char) : Bool := '0' ≤ c && c ≤ '9'

/-- The character class `[5-9]` of the phone pattern. -/
def isMobileDigit (c : Char) : Bool := '5' ≤ c && c ≤ '9'

/-- The character class `[ .-]` of the national-ID pattern. -/
def isSepCh (c : Char) : Bool := c == ' ' || c == '.' || c == '-'

/-- Match a literal character sequence; return the rest of the input. -/
def matchLit : List Char → List Char → Option (List Char)
  | [], s => some s
  | _ :: _, [] => none
  | l :: ls, c :: cs => if c = l then matchLit ls cs else none

/-- Match exactly `n` characters of class `\d`; return the rest. -/
def matchDigits : Nat → List Char → Option (List Char)
  | 0, s => some s
  | _ + 1, [] => none
  | n + 1, c :: rest => if isDigitCh c then matchDigits n rest else none

/-- Greedy optional character class (`X?` for a one-character class `X`),
with backtracking into the continuation `k`, as a backtracking regex engine
evaluates it: first try consuming a class character, and if the rest of the
pattern fails, retry without consuming. -/
def optCls (p : Char → Bool) (k : List Char → Option (List Char)) :
    List Char → Option (List Char)
  | [] => k []
  | c :: rest =>
    if p c then
      match k rest with
      | some r => some r
      | none => k (c :: rest)
    else k (c :: rest)

/-- Tail `\s?\d{7}` of the phone pattern. -/
def phoneFinal : List Char → Option (List Char) := optCls isPySpace (matchDigits 7)

/-- Tail `[5-9]\d\s?\d{7}` of the phone pattern. -/
def phoneMobile : List Char → Option (List Char)
  | c :: d :: rest => if isMobileDigit c && isDigitCh d then phoneFinal rest else none
  | _ => none

/-- Tail `\s?[5-9]\d\s?\d{7}` of the phone pattern. -/
def phoneAfterCode : List Char → Option (List Char) := optCls isPySpace phoneMobile

/-- The literal `\+971` opening the phone pattern. -/
def phoneLit : List Char := ['+', '9', '7', '1']

/-- Attempt `\+971\s?[5-9]\d\s?\d{7}` at the start of the input; on success
return the input remaining after the match. -/
def phoneMatch (s : List Char) : Option (List Char) :=
  (matchLit phoneLit s).bind phoneAfterCode

/-- `re.search` for the phone pattern: try every start position. -/
def searchPhone : List Char → Bool
  | [] => (phoneMatch []).isSome
  | c :: rest => (phoneMatch (c :: rest)).isSome || searchPhone rest

/-- The replacement token for phone matches. -/
def phoneMask : List Char := "****PH.NO****".data

/-- `re.sub` scanner for the phone pattern: `subPhoneAux s n` skips the next
`n` characters (the not-yet-skipped remainder of a replaced match), then at
each later position either replaces a leftmost match with `phoneMask` and
continues after it, or keeps the character. -/
def subPhoneAux : List Char → Nat → List Char
  | [], _ => []
  | _ :: rest, n + 1 => subPhoneAux rest n
  | c :: rest, 0 =>
    match phoneMatch (c :: rest) with
    | some r => phoneMask ++ subPhoneAux rest ((c :: rest).length - r.length - 1)
    | none => c :: subPhoneAux rest 0

/-- `re.sub(uae_phone_numbers_pattern, "****PH.NO****", s)`. -/
def subPhone (s : List Char) : List Char := subPhoneAux s 0

/-- The `$` anchor without MULTILINE: succeeds on the empty remainder or on a
single remaining newline (which stays outside the match). -/
def endAnchor : List Char → Option (List Char)
  | [] => some []
  | c :: [] => if c = '\n' then some (c :: []) else none
  | _ => none

/-- `\d{n}` followed by a continuation. -/
def thenDigits (n : Nat) (next : List Char → Option (List Char))
    (s : List Char) : Option (List Char) :=
  match matchDigits n s with
  | some t => next t
  | none => none

/-- Tail `[ .-]?\d{1}$` of the national-ID pattern. -/
def idTail3 : List Char → Option (List Char) := optCls isSepCh (thenDigits 1 endAnchor)

/-- Tail `[ .-]?\d{7}[ .-]?\d{1}$` of the national-ID pattern. -/
def idTail2 : List Char → Option (List Char) := optCls isSepCh (thenDigits 7 idTail3)

/-- Tail `[ .-]?\d{4}[ .-]?\d{7}[ .-]?\d{1}$` of the national-ID pattern. -/
def idTail1 : List Char → Option (List Char) := optCls isSepCh (thenDigits 4 idTail2)

/-- The literal `784` opening the national-ID pattern. -/
def idLit : List Char := ['7', '8', '4']

/-- Attempt `784[ .-]?\d{4}[ .-]?\d{7}[ .-]?\d{1}$` at the start of the
input (`^` without MULTILINE anchors every match there). -/
def idMatch (s : List Char) : Option (List Char) :=
  (matchLit idLit s).bind idTail1

/-- `re.search` for the `^`-anchored national-ID pattern: a match can only
start at position 0. -/
def searchID (s : List Char) : Bool := (idMatch s).isSome

/-- The replacement token for national-ID matches. -/
def idMask : List Char := "****UAE.ID****".data

/-- `re.sub(uae_national_id_pattern, "****UAE.ID****", s)`: with the `^`
anchor (no MULTILINE) at most one match exists, at position 0; a trailing
newline tolerated by `$` stays in place after the mask. -/
def subID (s : List Char) : List Char :=
  match idMatch s with
  | some r => idMask ++ r
  | none => s

/-- The fixed payload of the exception handler. -/
def errMsg : List Char := "Unexpected error during validation".data

/-- The guardrail `check_for_confidential_info(result)`.  The task result is
any value `result : α` together with its stringification `toStr`, which
returns `none` when `str(result)` raises (the `except` branch).  The payload
is either the original result object (`Sum.inl`, the accepting branch
`return (True, result)`) or a string (`Sum.inr`, the redacting and error
branches). -/
def check_for_confidential_info {α : Type} (toStr : α → Option (List Char))
    (result : α) : Bool × (α ⊕ List Char) :=
  match toStr result with
  | none => (false, Sum.inr errMsg)
  | some content0 =>
    let text1 := if searchPhone content0 then subPhone content0 else content0
    let red2 := searchPhone content0 || searchID text1
    let text2 := if searchID text1 then subID text1 else text1
    if red2 then (false, Sum.inr text2) else (true, Sum.inl result)

/-- An optional one-character class occurrence: the empty list, or a single
character of the class. -/
def optP (p : Char → Bool) (sp : List Char) : Prop :=
  sp = [] ∨ ∃ w, sp = [w] ∧ p w = true

/-- Declarative decomposition of a text matched by the source phone pattern
`\+971\s?[5-9]\d\s?\d{7}`. -/
def phoneShapeP (m : List Char) : Prop :=
  ∃ sp1 c5 c6 sp2 ds,
    m = '+' :: '9' :: '7' :: '1' :: (sp1 ++ c5 :: c6 :: (sp2 ++ ds)) ∧
    optP isPySpace sp1 ∧ isMobileDigit c5 = true ∧ isDigitCh c6 = true ∧
    optP isPySpace sp2 ∧ ds.length = 7 ∧ ds.all isDigitCh = true

/-- Declarative decomposition of a text matched by the source national-ID
pattern `784[ .-]?\d{4}[ .-]?\d{7}[ .-]?\d{1}` (anchors excluded). -/
def idShapeP (m : List Char) : Prop :=
  ∃ s1 d4 s2 d7 s3 d1,
    m = '7' :: '8' :: '4' :: (s1 ++ (d4 ++ (s2 ++ (d7 ++ (s3 ++ [d1]))))) ∧
    optP isSepCh s1 ∧ d4.length = 4 ∧ d4.all isDigitCh = true ∧
    optP isSepCh s2 ∧ d7.length = 7 ∧ d7.all isDigitCh = true ∧
    optP isSepCh s3 ∧ isDigitCh d1 = true

/-- Modelled from the spec: the tail "one digit, then 7 digits" of the phone
shape exactly as claim C7 words it. -/
def specTail2 (s : List Char) : Bool :=
  match s with
  | d :: rest => isDigitCh d && (matchDigits 7 rest).isSome
  | [] => false

/-- Modelled from the spec: "an optional space, one digit, then 7 digits". -/
def specTail1 (s : List Char) : Bool :=
  specTail2 s ||
    (match s with
     | c :: rest => isPySpace c && specTail2 rest
     | [] => false)

/-- Modelled from the spec: "a mobile prefix digit in [5-9], an optional
space, one digit, then 7 digits". -/
def specMobile (s : List Char) : Bool :=
  match s with
  | c :: rest => isMobileDigit c && specTail1 rest
  | [] => false

/-- Modelled from the spec: claim C7's phone shape starting at the current
position — the literal `+971`, an optional space, a digit in `[5-9]`, an
optional space, one digit, then 7 digits.  This follows the claim's words;
the source pattern instead reads `[5-9]\d\s?\d{7}`, placing the second
optional space after the single digit. -/
def specHere (s : List Char) : Bool :=
  match s with
  | a :: b :: c :: d :: rest =>
    a == '+' && b == '9' && c == '7' && d == '1' &&
      (specMobile rest ||
        (match rest with
         | w :: rest2 => isPySpace w && specMobile rest2
         | [] => false))
  | _ => false

/-- Modelled from the spec: the text contains a substring of claim C7's
phone shape, i.e. the shape matches at some start position. -/
def containsSpecPhoneShape : List Char → Bool
  | [] => specHere []
  | c :: rest => specHere (c :: rest) || containsSpecPhoneShape rest

/-! ### Character-class facts -/

theorem pySpace_elim {c : Char} (h : isPySpace c = true) :
    c = ' ' ∨ c = '\t' ∨ c = '\n' ∨ c = '\r' ∨ c = '\x0b' ∨ c = '\x0c' := by
  simpa [isPySpace, Bool.or_eq_true, beq_iff_eq, or_assoc] using h

theorem sepCh_elim {c : Char} (h : isSepCh c = true) :
    c = ' ' ∨ c = '.' ∨ c = '-' := by
  simpa [isSepCh, Bool.or_eq_true, beq_iff_eq, or_assoc] using h

theorem pySpace_not_digit {c : Char} (h : isPySpace c = true) : isDigitCh c = false := by
  rcases pySpace_elim h with rfl | rfl | rfl | rfl | rfl | rfl <;> decide

theorem sepCh_not_digit {c : Char} (h : isSepCh c = true) : isDigitCh c = false := by
  rcases sepCh_elim h with rfl | rfl | rfl <;> decide

theorem pySpace_not_mobile {c : Char} (h : isPySpace c = true) : isMobileDigit c = false := by
  rcases pySpace_elim h with rfl | rfl | rfl | rfl | rfl | rfl <;> decide

theorem digit_not_pySpace {c : Char} (h : isDigitCh c = true) : isPySpace c = false := by
  cases hs : isPySpace c
  · rfl
  · rw [pySpace_not_digit hs] at h
    cases h

theorem digit_not_sepCh {c : Char} (h : isDigitCh c = true) : isSepCh c = false := by
  cases hs : isSepCh c
  · rfl
  · rw [sepCh_not_digit hs] at h
    cases h

theorem mobile_not_pySpace {c : Char} (h : isMobileDigit c = true) : isPySpace c = false := by
  cases hs : isPySpace c
  · rfl
  · rw [pySpace_not_mobile hs] at h
    cases h

theorem mobile_isDigit {c : Char} (h : isMobileDigit c = true) : isDigitCh c = true := by
  simp only [isMobileDigit, Bool.and_eq_true, decide_eq_true_eq] at h
  simp only [isDigitCh, Bool.and_eq_true, decide_eq_true_eq]
  exact ⟨le_trans (by decide) h.1, h.2⟩

/-! ### Literal and digit-block matchers -/

theorem matchLit_some : ∀ (l s r : List Char), matchLit l s = some r → s = l ++ r
  | [], s, r, h => by
    simp only [matchLit, Option.some.injEq] at h
    simp [h]
  | _ :: _, [], r, h => Option.noConfusion h
  | l :: ls, c :: cs, r, h => by
    by_cases hc : c = l
    · subst hc
      rw [matchLit, if_pos rfl] at h
      simp [matchLit_some ls cs r h]
    · rw [matchLit, if_neg hc] at h
      cases h

theorem matchLit_self : ∀ (l r : List Char), matchLit l (l ++ r) = some r
  | [], _ => rfl
  | l :: ls, r => by
    rw [List.cons_append, matchLit, if_pos rfl]
    exact matchLit_self ls r

theorem matchLit_head_ne {l0 c : Char} (ls cs : List Char) (h : c ≠ l0) :
    matchLit (l0 :: ls) (c :: cs) = none := by
  rw [matchLit, if_neg h]

theorem matchDigits_some : ∀ (n : Nat) (s r : List Char), matchDigits n s = some r →
    ∃ ds, s = ds ++ r ∧ ds.length = n ∧ ds.all isDigitCh = true
  | 0, s, r, h => by
    simp only [matchDigits, Option.some.injEq] at h
    exact ⟨[], by simp [h], rfl, rfl⟩
  | _ + 1, [], r, h => Option.noConfusion h
  | n + 1, c :: rest, r, h => by
    by_cases hc : isDigitCh c = true
    · rw [matchDigits, if_pos hc] at h
      obtain ⟨ds, hds, hlen, hall⟩ := matchDigits_some n rest r h
      exact ⟨c :: ds, by simp [hds], by simp [hlen], by simp [hall, hc]⟩
    · rw [matchDigits, if_neg hc] at h
      cases h

theorem matchDigits_of : ∀ (ds r : List Char), ds.all isDigitCh = true →
    matchDigits ds.length (ds ++ r) = some r
  | [], _, _ => rfl
  | d :: ds, r, h => by
    simp only [List.all_cons, Bool.and_eq_true] at h
    rw [List.length_cons, List.cons_append, matchDigits, if_pos h.1]
    exact matchDigits_of ds r h.2

theorem matchDigits_head_ne (n : Nat) (c : Char) (s : List Char)
    (h : isDigitCh c = false) : matchDigits (n + 1) (c :: s) = none := by
  rw [matchDigits, if_neg (by simp [h])]

theorem thenDigits_some {n : Nat} {next : List Char → Option (List Char)}
    {s r : List Char} (h : thenDigits n next s = some r) :
    ∃ ds t, s = ds ++ t ∧ ds.length = n ∧ ds.all isDigitCh = true ∧ next t = some r := by
  unfold thenDigits at h
  cases hm : matchDigits n s with
  | none => rw [hm] at h; cases h
  | some t =>
    rw [hm] at h
    obtain ⟨ds, hds, hlen, hall⟩ := matchDigits_some n s t hm
    exact ⟨ds, t, hds, hlen, hall, h⟩

theorem thenDigits_of {next : List Char → Option (List Char)} {ds t r : List Char}
    (hall : ds.all isDigitCh = true) (h : next t = some r) :
    thenDigits ds.length next (ds ++ t) = some r := by
  unfold thenDigits
  rw [matchDigits_of ds t hall]
  exact h

theorem thenDigits_sep_none {n : Nat} {next : List Char → Option (List Char)}
    {c : Char} (s : List Char) (hc : isSepCh c = true) :
    thenDigits (n + 1) next (c :: s) = none := by
  unfold thenDigits
  rw [matchDigits_head_ne n c s (sepCh_not_digit hc)]

/-! ### The greedy optional-class combinator -/

theorem optCls_some {p : Char → Bool} {k : List Char → Option (List Char)}
    (hk : ∀ c s, p c = true → k (c :: s) = none) :
    ∀ (s r : List Char), optCls p k s = some r →
      ∃ sp t, s = sp ++ t ∧ optP p sp ∧ k t = some r
  | [], r, h => ⟨[], [], rfl, Or.inl rfl, h⟩
  | c :: rest, r, h => by
    by_cases hp : p c = true
    · rw [optCls, if_pos hp] at h
      cases hk2 : k rest with
      | some r2 =>
        rw [hk2] at h
        obtain rfl : r2 = r := Option.some.inj h
        exact ⟨[c], rest, rfl, Or.inr ⟨c, rfl, hp⟩, hk2⟩
      | none =>
        rw [hk2, hk c rest hp] at h
        cases h
    · rw [optCls, if_neg hp] at h
      exact ⟨[], c :: rest, rfl, Or.inl rfl, h⟩

theorem optCls_of {p : Char → Bool} {k : List Char → Option (List Char)}
    {sp t r : List Char} (hsp : optP p sp) (ht : k t = some r)
    (hhead : ∀ c t', t = c :: t' → p c = false) :
    optCls p k (sp ++ t) = some r := by
  rcases hsp with rfl | ⟨w, rfl, hw⟩
  · rw [List.nil_append]
    match t with
    | [] => exact ht
    | c :: t' =>
      rw [optCls, if_neg (by simp [hhead c t' rfl])]
      exact ht
  · rw [List.singleton_append, optCls, if_pos hw, ht]

/-! ### The phone pattern -/

theorem phoneFinal_some {s r : List Char} (h : phoneFinal s = some r) :
    ∃ sp ds, s = sp ++ (ds ++ r) ∧ optP isPySpace sp ∧
      ds.length = 7 ∧ ds.all isDigitCh = true := by
  obtain ⟨sp, t, hst, hsp, ht⟩ :=
    optCls_some (fun c s hc => matchDigits_head_ne 6 c s (pySpace_not_digit hc)) s r h
  obtain ⟨ds, hds, hlen, hall⟩ := matchDigits_some 7 t r ht
  exact ⟨sp, ds, by rw [hst, hds], hsp, hlen, hall⟩

theorem phoneFinal_of {sp ds r : List Char} (hsp : optP isPySpace sp)
    (hlen : ds.length = 7) (hall : ds.all isDigitCh = true) :
    phoneFinal (sp ++ (ds ++ r)) = some r := by
  have hmd : matchDigits 7 (ds ++ r) = some r := by
    rw [← hlen]; exact matchDigits_of ds r hall
  refine optCls_of hsp hmd ?_
  intro c t' he
  cases ds with
  | nil => exact absurd hlen (by decide)
  | cons d ds' =>
    have he2 : d :: (ds' ++ r) = c :: t' := by simpa using he
    injection he2 with h1 _
    exact h1 ▸ digit_not_pySpace (List.all_eq_true.mp hall d (by simp))

theorem phoneMobile_some {s r : List Char} (h : phoneMobile s = some r) :
    ∃ c d t, s = c :: d :: t ∧ isMobileDigit c = true ∧ isDigitCh d = true ∧
      phoneFinal t = some r := by
  match s with
  | [] => exact Option.noConfusion h
  | [c] => exact Option.noConfusion h
  | c :: d :: t =>
    by_cases hc : (isMobileDigit c && isDigitCh d) = true
    · rw [phoneMobile, if_pos hc] at h
      simp only [Bool.and_eq_true] at hc
      exact ⟨c, d, t, rfl, hc.1, hc.2, h⟩
    · rw [phoneMobile, if_neg hc] at h
      cases h

theorem phoneMobile_of {c d : Char} {t r : List Char} (hc : isMobileDigit c = true)
    (hd : isDigitCh d = true) (h : phoneFinal t = some r) :
    phoneMobile (c :: d :: t) = some r := by
  rw [phoneMobile, if_pos (by simp [hc, hd])]
  exact h

theorem phoneMobile_space_none {c : Char} (s : List Char) (hc : isPySpace c = true) :
    phoneMobile (c :: s) = none := by
  match s with
  | [] => rfl
  | d :: t =>
    rw [phoneMobile, if_neg (by simp [pySpace_not_mobile hc])]

theorem phoneMatch_shape {s r : List Char} (h : phoneMatch s = some r) :
    ∃ m, s = m ++ r ∧ phoneShapeP m := by
  unfold phoneMatch at h
  cases hl : matchLit phoneLit s with
  | none => rw [hl] at h; cases h
  | some s1 =>
    rw [hl] at h
    have hs1 : s = phoneLit ++ s1 := matchLit_some _ _ _ hl
    obtain ⟨sp1, t1, ht1, hsp1, hmob⟩ :=
      optCls_some (fun c s hc => phoneMobile_space_none s hc) s1 r h
    obtain ⟨c5, c6, t2, ht2, hc5, hc6, hfin⟩ := phoneMobile_some hmob
    obtain ⟨sp2, ds, ht3, hsp2, hlen, hall⟩ := phoneFinal_some hfin
    refine ⟨'+' :: '9' :: '7' :: '1' :: (sp1 ++ c5 :: c6 :: (sp2 ++ ds)),
      ?_, sp1, c5, c6, sp2, ds, rfl, hsp1, hc5, hc6, hsp2, hlen, hall⟩
    rw [hs1, ht1, ht2, ht3]
    simp [phoneLit]

theorem phoneShape_of {m : List Char} (hm : phoneShapeP m) (u : List Char) :
    phoneMatch (m ++ u) = some u := by
  obtain ⟨sp1, c5, c6, sp2, ds, rfl, hsp1, hc5, hc6, hsp2, hlen, hall⟩ := hm
  unfold phoneMatch
  have he : '+' :: '9' :: '7' :: '1' :: (sp1 ++ c5 :: c6 :: (sp2 ++ ds)) ++ u =
      phoneLit ++ (sp1 ++ (c5 :: c6 :: (sp2 ++ (ds ++ u)))) := by
    simp [phoneLit]
  rw [he, matchLit_self]
  show phoneAfterCode (sp1 ++ (c5 :: c6 :: (sp2 ++ (ds ++ u)))) = some u
  refine optCls_of hsp1 ?_ ?_
  · exact phoneMobile_of hc5 hc6 (phoneFinal_of hsp2 hlen hall)
  · intro c t' he2
    injection he2 with h1 _
    exact h1 ▸ mobile_not_pySpace hc5

theorem phoneMatch_nil : phoneMatch [] = none := rfl

theorem phoneMatch_head_ne {c : Char} (t : List Char) (h : c ≠ '+') :
    phoneMatch (c :: t) = none := by
  unfold phoneMatch
  rw [show phoneLit = '+' :: ['9', '7', '1'] from rfl, matchLit_head_ne _ _ h]
  rfl

theorem optP_mem {p : Char → Bool} {sp : List Char} (h : optP p sp) {x : Char}
    (hx : x ∈ sp) : p x = true := by
  rcases h with rfl | ⟨w, rfl, hw⟩
  · cases hx
  · simp only [List.mem_singleton] at hx
    exact hx ▸ hw

theorem phoneShape_chars {m : List Char} (hm : phoneShapeP m) :
    ∀ x ∈ m, x = '+' ∨ isDigitCh x = true ∨ isPySpace x = true := by
  obtain ⟨sp1, c5, c6, sp2, ds, rfl, hsp1, hc5, hc6, hsp2, hlen, hall⟩ := hm
  intro x hx
  simp only [List.mem_cons, List.mem_append] at hx
  rcases hx with rfl | rfl | rfl | rfl | hx | rfl | rfl | hx | hx
  · exact Or.inl rfl
  · exact Or.inr (Or.inl (by decide))
  · exact Or.inr (Or.inl (by decide))
  · exact Or.inr (Or.inl (by decide))
  · exact Or.inr (Or.inr (optP_mem hsp1 hx))
  · exact Or.inr (Or.inl (mobile_isDigit hc5))
  · exact Or.inr (Or.inl hc6)
  · exact Or.inr (Or.inr (optP_mem hsp2 hx))
  · exact Or.inr (Or.inl (List.all_eq_true.mp hall x hx))

/-! ### `re.search` for the phone pattern -/

theorem searchPhone_nil : searchPhone [] = false := rfl

theorem searchPhone_append_of_isSome :
    ∀ (pre t : List Char), (phoneMatch t).isSome = true → searchPhone (pre ++ t) = true
  | [], t, h => by
    cases t with
    | nil => rw [phoneMatch_nil] at h; cases h
    | cons c rest =>
      rw [List.nil_append]
      simp only [searchPhone]
      rw [h, Bool.true_or]
  | x :: pre, t, h => by
    rw [List.cons_append]
    simp only [searchPhone]
    rw [searchPhone_append_of_isSome pre t h, Bool.or_true]

theorem searchPhone_append_no_plus :
    ∀ (pre t : List Char), (∀ x ∈ pre, x ≠ '+') → searchPhone (pre ++ t) = searchPhone t
  | [], _, _ => rfl
  | x :: pre, t, h => by
    rw [List.cons_append]
    simp only [searchPhone]
    rw [phoneMatch_head_ne _ (h x (by simp)), Option.isSome_none, Bool.false_or]
    exact searchPhone_append_no_plus pre t (fun y hy => h y (by simp [hy]))

/-! ### `re.sub` for the phone pattern -/

theorem subPhoneAux_skip : ∀ (a t : List Char), subPhoneAux (a ++ t) a.length = subPhoneAux t 0
  | [], _ => rfl
  | x :: a, t => by
    rw [List.cons_append, List.length_cons]
    show subPhoneAux (a ++ t) a.length = subPhoneAux t 0
    exact subPhoneAux_skip a t

theorem subPhone_cons_none {c : Char} {rest : List Char}
    (h : phoneMatch (c :: rest) = none) :
    subPhoneAux (c :: rest) 0 = c :: subPhoneAux rest 0 := by
  simp only [subPhoneAux, h]

theorem subPhone_cons_some {c : Char} {rest r : List Char}
    (h : phoneMatch (c :: rest) = some r) :
    subPhoneAux (c :: rest) 0 = phoneMask ++ subPhoneAux r 0 := by
  obtain ⟨m, hm, hsh⟩ := phoneMatch_shape h
  cases m with
  | nil =>
    obtain ⟨_, _, _, _, _, he, _⟩ := hsh
    exact absurd he (by simp)
  | cons x mtl =>
    rw [List.cons_append] at hm
    injection hm with h1 h2
    subst h1
    have hlen : (c :: rest).length - r.length - 1 = mtl.length := by
      rw [List.length_cons, h2, List.length_append]
      omega
    simp only [subPhoneAux, h, hlen]
    rw [h2, subPhoneAux_skip]

theorem subPhone_split : ∀ (s : List Char),
    subPhoneAux s 0 = s ∨
      ∃ a b z, s = a ++ b ∧ (∃ rb, phoneMatch b = some rb) ∧
        subPhoneAux s 0 = a ++ (phoneMask ++ z)
  | [] => Or.inl rfl
  | c :: rest => by
    cases h : phoneMatch (c :: rest) with
    | some r =>
      refine Or.inr ⟨[], c :: rest, subPhoneAux r 0, rfl, ⟨r, h⟩, ?_⟩
      rw [subPhone_cons_some h, List.nil_append]
    | none =>
      rcases subPhone_split rest with heq | ⟨a, b, z, hab, hb, heq⟩
      · exact Or.inl (by rw [subPhone_cons_none h, heq])
      · refine Or.inr ⟨c :: a, b, z, by rw [hab, List.cons_append], hb, ?_⟩
        rw [subPhone_cons_none h, heq, List.cons_append]

theorem phoneMatch_cons_sub {c : Char} {rest : List Char}
    (h : phoneMatch (c :: rest) = none) :
    phoneMatch (c :: subPhoneAux rest 0) = none := by
  rcases subPhone_split rest with heq | ⟨a, b, z, hab, ⟨rb, hb⟩, heq⟩
  · rw [heq]
    exact h
  · rw [heq]
    by_contra hne
    obtain ⟨r', h'⟩ := Option.ne_none_iff_exists'.mp hne
    obtain ⟨m, hm, hsh⟩ := phoneMatch_shape h'
    rw [← List.cons_append] at hm
    rcases le_or_lt m.length (c :: a).length with hle | hlt
    · have hmeq : m = (c :: a).take m.length := by
        have h1 : ((c :: a) ++ (phoneMask ++ z)).take m.length
            = (m ++ r').take m.length := by rw [hm]
        rw [List.take_left, List.take_append_eq_append_take,
          Nat.sub_eq_zero_of_le hle, List.take_zero, List.append_nil] at h1
        exact h1.symm
      have hsplit : c :: rest = m ++ ((c :: a).drop m.length ++ b) := by
        rw [hab, ← List.cons_append]
        conv_lhs => rw [← List.take_append_drop m.length (c :: a)]
        rw [← hmeq, List.append_assoc]
      have hsome := phoneShape_of hsh ((c :: a).drop m.length ++ b)
      rw [← hsplit] at hsome
      rw [hsome] at h
      cases h
    · have hmeq : m = (c :: a) ++ (phoneMask ++ z).take (m.length - (c :: a).length) := by
        have h1 : ((c :: a) ++ (phoneMask ++ z)).take m.length
            = (m ++ r').take m.length := by rw [hm]
        rw [List.take_left, List.take_append_eq_append_take,
          List.take_of_length_le (Nat.le_of_lt hlt)] at h1
        exact h1.symm
      have hstar : '*' ∈ m := by
        rw [hmeq]
        refine List.mem_append_right _ ?_
        cases hj : m.length - (c :: a).length with
        | zero => omega
        | succ j' =>
          have hpm : phoneMask ++ z = '*' :: (phoneMask.tail ++ z) := rfl
          rw [hpm, List.take_succ_cons]
          exact List.mem_cons_self _ _
      rcases phoneShape_chars hsh '*' hstar with h1 | h1 | h1
      · exact absurd h1 (by decide)
      · exact absurd h1 (by decide)
      · exact absurd h1 (by decide)

theorem searchPhone_sub_aux : ∀ (n : Nat) (s : List Char), s.length ≤ n →
    searchPhone (subPhoneAux s 0) = false
  | _, [], _ => rfl
  | 0, _ :: _, h => absurd h (by simp)
  | n + 1, c :: rest, h => by
    cases hpm : phoneMatch (c :: rest) with
    | none =>
      rw [subPhone_cons_none hpm]
      simp only [searchPhone]
      rw [phoneMatch_cons_sub hpm, Option.isSome_none, Bool.false_or]
      exact searchPhone_sub_aux n rest (by
        rw [List.length_cons] at h
        omega)
    | some r =>
      rw [subPhone_cons_some hpm, searchPhone_append_no_plus phoneMask _ (by decide)]
      obtain ⟨m, hm, hsh⟩ := phoneMatch_shape hpm
      have hml : 1 ≤ m.length := by
        obtain ⟨_, _, _, _, _, hme, _⟩ := hsh
        rw [hme]
        simp
      have hr : r.length ≤ n := by
        have hlen : (c :: rest).length = m.length + r.length := by
          rw [hm, List.length_append]
        rw [List.length_cons] at hlen h
        omega
      exact searchPhone_sub_aux n r hr

/-- After the global phone substitution no phone match remains anywhere. -/
theorem searchPhone_subPhone (s : List Char) : searchPhone (subPhone s) = false :=
  searchPhone_sub_aux s.length s le_rfl

theorem subPhone_has_mask : ∀ (s : List Char), searchPhone s = true →
    ∃ u v, subPhoneAux s 0 = u ++ (phoneMask ++ v)
  | [], h => absurd h (by decide)
  | c :: rest, h => by
    cases hpm : phoneMatch (c :: rest) with
    | some r =>
      exact ⟨[], subPhoneAux r 0, by rw [subPhone_cons_some hpm, List.nil_append]⟩
    | none =>
      have hrest : searchPhone rest = true := by
        simp only [searchPhone, hpm, Option.isSome_none, Bool.false_or] at h
        exact h
      obtain ⟨u, v, huv⟩ := subPhone_has_mask rest hrest
      exact ⟨c :: u, v, by rw [subPhone_cons_none hpm, huv, List.cons_append]⟩

/-! ### The national-ID pattern -/

theorem endAnchor_some : ∀ {s r : List Char}, endAnchor s = some r →
    r = s ∧ (s = [] ∨ s = ['\n'])
  | [], r, h => ⟨(Option.some.inj h).symm, Or.inl rfl⟩
  | [c], r, h => by
    by_cases hc : c = '\n'
    · subst hc
      rw [endAnchor, if_pos rfl] at h
      exact ⟨(Option.some.inj h).symm, Or.inr rfl⟩
    · rw [endAnchor, if_neg hc] at h
      cases h
  | _ :: _ :: _, r, h => Option.noConfusion h

theorem endAnchor_of {t : List Char} (h : t = [] ∨ t = ['\n']) :
    endAnchor t = some t := by
  rcases h with rfl | rfl
  · rfl
  · rw [endAnchor, if_pos rfl]

theorem idTail3_some {s r : List Char} (h : idTail3 s = some r) :
    ∃ s3 d1, s = s3 ++ (d1 :: r) ∧ optP isSepCh s3 ∧ isDigitCh d1 = true ∧
      (r = [] ∨ r = ['\n']) := by
  obtain ⟨sp, t, hst, hsp, ht⟩ :=
    optCls_some (fun c s hc => thenDigits_sep_none (n := 0) s hc) s r h
  obtain ⟨ds, t2, hds, hlen, hall, hend⟩ := thenDigits_some ht
  obtain ⟨hr, hcases⟩ := endAnchor_some hend
  cases ds with
  | nil => exact absurd hlen (by decide)
  | cons d ds' =>
    have h0 : ds' = [] := by
      rw [List.length_cons] at hlen
      exact List.length_eq_zero.mp (by omega)
    subst h0
    subst hr
    exact ⟨sp, d, by rw [hst, hds]; rfl, hsp,
      List.all_eq_true.mp hall d (by simp), hcases⟩

theorem idTail3_of {s3 : List Char} {d1 : Char} {t : List Char}
    (hsp : optP isSepCh s3) (hd : isDigitCh d1 = true) (ht : t = [] ∨ t = ['\n']) :
    idTail3 (s3 ++ (d1 :: t)) = some t := by
  refine optCls_of hsp ?_ ?_
  · have h1 : thenDigits ([d1].length) endAnchor ([d1] ++ t) = some t :=
      thenDigits_of (by simp [hd]) (endAnchor_of ht)
    simpa using h1
  · intro c t' he
    injection he with h1 _
    exact h1 ▸ digit_not_sepCh hd

theorem idTail2_some {s r : List Char} (h : idTail2 s = some r) :
    ∃ s2 d7 s3 d1, s = s2 ++ (d7 ++ (s3 ++ (d1 :: r))) ∧ optP isSepCh s2 ∧
      d7.length = 7 ∧ d7.all isDigitCh = true ∧ optP isSepCh s3 ∧
      isDigitCh d1 = true ∧ (r = [] ∨ r = ['\n']) := by
  obtain ⟨sp, t, hst, hsp, ht⟩ :=
    optCls_some (fun c s hc => thenDigits_sep_none (n := 6) s hc) s r h
  obtain ⟨ds, t2, hds, hlen, hall, htl⟩ := thenDigits_some ht
  obtain ⟨s3, d1, ht2, hs3, hd1, hr⟩ := idTail3_some htl
  exact ⟨sp, ds, s3, d1, by rw [hst, hds, ht2], hsp, hlen, hall, hs3, hd1, hr⟩

theorem idTail2_of {s2 d7 s3 : List Char} {d1 : Char} {t : List Char}
    (hs2 : optP isSepCh s2) (h7l : d7.length = 7) (h7a : d7.all isDigitCh = true)
    (hs3 : optP isSepCh s3) (hd : isDigitCh d1 = true) (ht : t = [] ∨ t = ['\n']) :
    idTail2 (s2 ++ (d7 ++ (s3 ++ (d1 :: t)))) = some t := by
  refine optCls_of hs2 ?_ ?_
  · have h1 : thenDigits d7.length idTail3 (d7 ++ (s3 ++ (d1 :: t))) = some t :=
      thenDigits_of h7a (idTail3_of hs3 hd ht)
    rw [h7l] at h1
    exact h1
  · intro c t' he
    cases d7 with
    | nil => exact absurd h7l (by decide)
    | cons d ds' =>
      have he2 : d :: (ds' ++ (s3 ++ (d1 :: t))) = c :: t' := by simpa using he
      injection he2 with h1 _
      exact h1 ▸ digit_not_sepCh (List.all_eq_true.mp h7a d (by simp))

theorem idTail1_some {s r : List Char} (h : idTail1 s = some r) :
    ∃ s1 d4 s2 d7 s3 d1, s = s1 ++ (d4 ++ (s2 ++ (d7 ++ (s3 ++ (d1 :: r))))) ∧
      optP isSepCh s1 ∧ d4.length = 4 ∧ d4.all isDigitCh = true ∧
      optP isSepCh s2 ∧ d7.length = 7 ∧ d7.all isDigitCh = true ∧
      optP isSepCh s3 ∧ isDigitCh d1 = true ∧ (r = [] ∨ r = ['\n']) := by
  obtain ⟨sp, t, hst, hsp, ht⟩ :=
    optCls_some (fun c s hc => thenDigits_sep_none (n := 3) s hc) s r h
  obtain ⟨ds, t2, hds, hlen, hall, htl⟩ := thenDigits_some ht
  obtain ⟨s2, d7, s3, d1, ht2, hs2, h7l, h7a, hs3, hd1, hr⟩ := idTail2_some htl
  exact ⟨sp, ds, s2, d7, s3, d1, by rw [hst, hds, ht2], hsp, hlen, hall,
    hs2, h7l, h7a, hs3, hd1, hr⟩

theorem idTail1_of {s1 d4 s2 d7 s3 : List Char} {d1 : Char} {t : List Char}
    (hs1 : optP isSepCh s1) (h4l : d4.length = 4) (h4a : d4.all isDigitCh = true)
    (hs2 : optP isSepCh s2) (h7l : d7.length = 7) (h7a : d7.all isDigitCh = true)
    (hs3 : optP isSepCh s3) (hd : isDigitCh d1 = true) (ht : t = [] ∨ t = ['\n']) :
    idTail1 (s1 ++ (d4 ++ (s2 ++ (d7 ++ (s3 ++ (d1 :: t)))))) = some t := by
  refine optCls_of hs1 ?_ ?_
  · have h1 : thenDigits d4.length idTail2 (d4 ++ (s2 ++ (d7 ++ (s3 ++ (d1 :: t))))) =
        some t := thenDigits_of h4a (idTail2_of hs2 h7l h7a hs3 hd ht)
    rw [h4l] at h1
    exact h1
  · intro c t' he
    cases d4 with
    | nil => exact absurd h4l (by decide)
    | cons d ds' =>
      have he2 : d :: (ds' ++ (s2 ++ (d7 ++ (s3 ++ (d1 :: t))))) = c :: t' := by
        simpa using he
      injection he2 with h1 _
      exact h1 ▸ digit_not_sepCh (List.all_eq_true.mp h4a d (by simp))

theorem idMatch_shape {s r : List Char} (h : idMatch s = some r) :
    ∃ m, s = m ++ r ∧ idShapeP m ∧ (r = [] ∨ r = ['\n']) := by
  unfold idMatch at h
  cases hl : matchLit idLit s with
  | none => rw [hl] at h; cases h
  | some s1 =>
    rw [hl] at h
    have hs1 : s = idLit ++ s1 := matchLit_some _ _ _ hl
    obtain ⟨t1, d4, t2, d7, t3, d1, ht, hs1o, h4l, h4a, hs2o, h7l, h7a, hs3o, hd1, hr⟩ :=
      idTail1_some h
    refine ⟨'7' :: '8' :: '4' :: (t1 ++ (d4 ++ (t2 ++ (d7 ++ (t3 ++ [d1]))))), ?_,
      ⟨t1, d4, t2, d7, t3, d1, rfl, hs1o, h4l, h4a, hs2o, h7l, h7a, hs3o, hd1⟩, hr⟩
    rw [hs1, ht]
    simp [idLit, List.append_assoc]

theorem idShape_of {m : List Char} (hm : idShapeP m) {t : List Char}
    (ht : t = [] ∨ t = ['\n']) : idMatch (m ++ t) = some t := by
  obtain ⟨s1, d4, s2, d7, s3, d1, rfl, hs1, h4l, h4a, hs2, h7l, h7a, hs3, hd⟩ := hm
  unfold idMatch
  have he : ('7' :: '8' :: '4' :: (s1 ++ (d4 ++ (s2 ++ (d7 ++ (s3 ++ [d1])))))) ++ t =
      idLit ++ (s1 ++ (d4 ++ (s2 ++ (d7 ++ (s3 ++ (d1 :: t)))))) := by
    simp [idLit, List.append_assoc]
  rw [he, matchLit_self]
  exact idTail1_of hs1 h4l h4a hs2 h7l h7a hs3 hd ht

/-! ### Evaluating the guardrail -/

theorem check_eq_of_some {α : Type} {toStr : α → Option (List Char)} {result : α}
    {s : List Char} (hs : toStr result = some s) :
    check_for_confidential_info toStr result =
      (if searchPhone s || searchID (if searchPhone s then subPhone s else s)
       then (false, Sum.inr (if searchID (if searchPhone s then subPhone s else s)
             then subID (if searchPhone s then subPhone s else s)
             else (if searchPhone s then subPhone s else s)))
       else (true, Sum.inl result)) := by
  unfold check_for_confidential_info
  rw [hs]

theorem check_eq_of_none {α : Type} {toStr : α → Option (List Char)} {result : α}
    (hs : toStr result = none) :
    check_for_confidential_info toStr result = (false, Sum.inr errMsg) := by
  unfold check_for_confidential_info
  rw [hs]

theorem check_accepted {α : Type} {toStr : α → Option (List Char)} {result : α}
    {s : List Char} (hs : toStr result = some s) (hp : searchPhone s = false)
    (hq : searchID s = false) :
    check_for_confidential_info toStr result = (true, Sum.inl result) := by
  rw [check_eq_of_some hs, hp]
  simp [hq]

theorem check_rejected_payload {α : Type} {toStr : α → Option (List Char)} {result : α}
    {s t : List Char} (hs : toStr result = some s)
    (h : check_for_confidential_info toStr result = (false, Sum.inr t)) :
    t = (if searchID (if searchPhone s then subPhone s else s)
         then subID (if searchPhone s then subPhone s else s)
         else (if searchPhone s then subPhone s else s)) ∧
      (searchPhone s || searchID (if searchPhone s then subPhone s else s)) = true := by
  rw [check_eq_of_some hs] at h
  by_cases hred : (searchPhone s || searchID (if searchPhone s then subPhone s else s)) = true
  · rw [if_pos hred] at h
    have h2 := (Prod.mk.injEq _ _ _ _).mp h
    exact ⟨(Sum.inr.inj h2.2).symm, hred⟩
  · rw [if_neg hred] at h
    exact absurd (congrArg Prod.fst h) (by simp)

theorem clean_idMask {r : List Char} (hr : r = [] ∨ r = ['\n']) :
    searchPhone (idMask ++ r) = false ∧ searchID (idMask ++ r) = false := by
  rcases hr with rfl | rfl
  · exact ⟨by decide, by decide⟩
  · exact ⟨by decide, by decide⟩

theorem check_rejected_clean {α : Type} {toStr : α → Option (List Char)} {result : α}
    {s t : List Char} (hs : toStr result = some s)
    (h : check_for_confidential_info toStr result = (false, Sum.inr t)) :
    searchPhone t = false ∧ searchID t = false := by
  obtain ⟨ht, hred⟩ := check_rejected_payload hs h
  subst ht
  by_cases hq : searchID (if searchPhone s then subPhone s else s) = true
  · obtain ⟨r, hr⟩ := Option.isSome_iff_exists.mp (by simpa [searchID] using hq)
    obtain ⟨_, _, _, hrr⟩ := idMatch_shape hr
    rw [if_pos hq]
    simp only [subID, hr]
    exact clean_idMask hrr
  · have hq' : searchID (if searchPhone s then subPhone s else s) = false := by
      simpa using hq
    rw [if_neg hq]
    have hp : searchPhone s = true := by
      rw [hq', Bool.or_false] at hred
      exact hred
    rw [if_pos hp] at hq' ⊢
    exact ⟨searchPhone_subPhone s, hq'⟩

/-! ### The claims -/

/-- Claim C1, counterexample: on the input "ID: 784 1234 1234567 1" the
guardrail does not return (false, "ID: ****UAE.ID****"): the national-ID
pattern is anchored at the start of the string, so the leading "ID: "
prevents any match and nothing is redacted. -/
theorem claim_C1_counterexample :
    check_for_confidential_info (fun u => some u) "ID: 784 1234 1234567 1".data ≠
      (false, Sum.inr "ID: ****UAE.ID****".data) := by decide

/-- Claim C1, amended: on the input "ID: 784 1234 1234567 1" the guardrail
returns (true, original input) unchanged, because the national-ID pattern
is anchored at the start and end of the whole string; the ****UAE.ID****
mask is produced only when the entire string has the ID shape, e.g. the
input "784 1234 1234567 1" yields (false, "****UAE.ID****"). -/
theorem claim_C1_amended :
    check_for_confidential_info (fun u => some u) "ID: 784 1234 1234567 1".data =
      (true, Sum.inl "ID: 784 1234 1234567 1".data) ∧
    check_for_confidential_info (fun u => some u) "784 1234 1234567 1".data =
      (false, Sum.inr "****UAE.ID****".data) :=
  ⟨by decide, by decide⟩

/-- Claim C2: when the string representation of the result matches neither
the phone pattern nor the national-ID pattern, the guardrail returns
(true, result), whose payload is the original, unconverted result object
itself. -/
theorem claim_C2 {α : Type} (toStr : α → Option (List Char)) (result : α)
    (s : List Char) (hs : toStr result = some s) (hp : searchPhone s = false)
    (hq : searchID s = false) :
    check_for_confidential_info toStr result = (true, Sum.inl result) :=
  check_accepted hs hp hq

theorem claim_C2_witness :
    check_for_confidential_info (fun u => some u)
        "The policy covers annual leave of 30 days.".data =
      (true, Sum.inl "The policy covers annual leave of 30 days.".data) :=
  claim_C2 _ _ _ rfl (by decide) (by decide)

/-- Claim C3: a text containing a phone-pattern match is rejected with a
payload in which every occurrence has been replaced by ****PH.NO**** — the
payload contains no remaining phone-pattern match — and the spec's example
(as well as an input with two phone numbers) produces the exact masked
text. -/
theorem claim_C3 :
    (∀ s : List Char, searchPhone s = true →
      ∃ t, check_for_confidential_info (fun u => some u) s = (false, Sum.inr t) ∧
        searchPhone t = false) ∧
    check_for_confidential_info (fun u => some u)
        "Contact +971 50 1234567 for details".data =
      (false, Sum.inr "Contact ****PH.NO**** for details".data) ∧
    check_for_confidential_info (fun u => some u)
        "A +971 50 1234567 B +971 55 7654321 C".data =
      (false, Sum.inr "A ****PH.NO**** B ****PH.NO**** C".data) := by
  refine ⟨?_, by decide, by decide⟩
  intro s hp
  have hred : (searchPhone s || searchID (if searchPhone s then subPhone s else s)) = true := by
    rw [hp, Bool.true_or]
  have hchk : check_for_confidential_info (fun u => some u) s =
      (false, Sum.inr (if searchID (if searchPhone s then subPhone s else s)
        then subID (if searchPhone s then subPhone s else s)
        else (if searchPhone s then subPhone s else s))) := by
    rw [check_eq_of_some rfl, if_pos hred]
  exact ⟨_, hchk, (check_rejected_clean rfl hchk).1⟩

theorem claim_C3_witness :
    ∃ t, check_for_confidential_info (fun u => some u) "Call +971551234567 now".data =
      (false, Sum.inr t) ∧ searchPhone t = false :=
  claim_C3.1 _ (by decide)

/-- Claim C4: when stringification of the input raises, the guardrail
catches the fault and returns (false, "Unexpected error during
validation"); the embedded guardrail is a total function, so no fault
crosses its boundary. -/
theorem claim_C4 {α : Type} (toStr : α → Option (List Char)) (result : α)
    (h : toStr result = none) :
    check_for_confidential_info toStr result =
      (false, Sum.inr "Unexpected error during validation".data) :=
  check_eq_of_none h

theorem claim_C4_witness :
    check_for_confidential_info (fun _ : Unit => (none : Option (List Char))) () =
      (false, Sum.inr "Unexpected error during validation".data) :=
  claim_C4 _ () rfl

/-- Claim C5: redaction is idempotent — whenever the guardrail rejects a
stringifiable result with a redacted payload, validating that payload again
accepts it unchanged, as it contains no further match of either pattern. -/
theorem claim_C5 {α : Type} (toStr : α → Option (List Char)) (result : α)
    (s t : List Char) (hs : toStr result = some s)
    (h : check_for_confidential_info toStr result = (false, Sum.inr t)) :
    check_for_confidential_info (fun u => some u) t = (true, Sum.inl t) := by
  obtain ⟨hp, hq⟩ := check_rejected_clean hs h
  exact check_accepted rfl hp hq

theorem claim_C5_witness :
    check_for_confidential_info (fun u => some u) "Contact ****PH.NO****".data =
      (true, Sum.inl "Contact ****PH.NO****".data) :=
  claim_C5 (fun u => some u) "Contact +971 50 1234567".data
    "Contact +971 50 1234567".data "Contact ****PH.NO****".data rfl (by decide)

/-- Claim C6: phone redaction is applied first and its output is the input
of the national-ID stage; every rejected payload equals the ID stage
applied after the phone stage and contains no un-redacted match of either
pattern. -/
theorem claim_C6 {α : Type} (toStr : α → Option (List Char)) (result : α)
    (s t : List Char) (hs : toStr result = some s)
    (h : check_for_confidential_info toStr result = (false, Sum.inr t)) :
    t = (if searchID (if searchPhone s then subPhone s else s)
         then subID (if searchPhone s then subPhone s else s)
         else (if searchPhone s then subPhone s else s)) ∧
      searchPhone t = false ∧ searchID t = false :=
  ⟨(check_rejected_payload hs h).1, check_rejected_clean hs h⟩

theorem claim_C6_witness :
    "****UAE.ID****".data =
      (if searchID (if searchPhone "784-1234-1234567-1".data
            then subPhone "784-1234-1234567-1".data else "784-1234-1234567-1".data)
       then subID (if searchPhone "784-1234-1234567-1".data
            then subPhone "784-1234-1234567-1".data else "784-1234-1234567-1".data)
       else (if searchPhone "784-1234-1234567-1".data
            then subPhone "784-1234-1234567-1".data else "784-1234-1234567-1".data)) ∧
      searchPhone "****UAE.ID****".data = false ∧
      searchID "****UAE.ID****".data = false :=
  claim_C6 (fun u => some u) "784-1234-1234567-1".data "784-1234-1234567-1".data
    "****UAE.ID****".data rfl (by decide)

/-- Claim C7, counterexample: the claim places the optional space before
the single digit, the code's pattern (`[5-9]\d\s?\d{7}`) places it after.
The text "+97151 2345678" is a phone-matcher hit but contains no substring
of the claim's shape, and "+9715 12345678" contains the claim's shape but
is not a hit, refuting the claimed equivalence in both directions. -/
theorem claim_C7_counterexample :
    searchPhone "+97151 2345678".data = true ∧
      containsSpecPhoneShape "+97151 2345678".data = false ∧
      containsSpecPhoneShape "+9715 12345678".data = true ∧
      searchPhone "+9715 12345678".data = false :=
  ⟨by decide, by decide, by decide, by decide⟩

/-- Claim C7, amended: the phone matcher reports a hit exactly when the
text contains a substring of the shape: the literal +971, an optional
space, a digit in [5-9], one digit, an optional space, then 7 digits. -/
theorem claim_C7_amended (s : List Char) :
    searchPhone s = true ↔ ∃ pre m post, s = pre ++ (m ++ post) ∧ phoneShapeP m := by
  induction s with
  | nil =>
    constructor
    · intro h
      exact absurd h (by decide)
    · rintro ⟨pre, m, post, he, hsh⟩
      obtain ⟨_, _, _, _, _, hme, _⟩ := hsh
      obtain ⟨hpre, h2⟩ := List.append_eq_nil.mp he.symm
      obtain ⟨hm, _⟩ := List.append_eq_nil.mp h2
      rw [hm] at hme
      exact List.noConfusion hme
  | cons c rest ih =>
    constructor
    · intro h
      simp only [searchPhone, Bool.or_eq_true] at h
      rcases h with h | h
      · obtain ⟨r, hr⟩ := Option.isSome_iff_exists.mp h
        obtain ⟨m, hm, hsh⟩ := phoneMatch_shape hr
        exact ⟨[], m, r, by rw [List.nil_append, hm], hsh⟩
      · obtain ⟨pre, m, post, he, hsh⟩ := ih.mp h
        exact ⟨c :: pre, m, post, by rw [he, List.cons_append], hsh⟩
    · rintro ⟨pre, m, post, he, hsh⟩
      rw [he]
      exact searchPhone_append_of_isSome pre (m ++ post) (by
        rw [phoneShape_of hsh post]
        rfl)

/-- Claim C8: a rejecting verdict always carries a non-empty payload — the
fault branch returns the fixed non-empty error message, and the redaction
branch returns masked text containing at least one mask token. -/
theorem claim_C8 {α : Type} (toStr : α → Option (List Char)) (result : α)
    (t : List Char)
    (h : check_for_confidential_info toStr result = (false, Sum.inr t)) :
    t ≠ [] ∧ (toStr result = none → t = errMsg) ∧
      (∀ s, toStr result = some s →
        (∃ u v, t = u ++ (phoneMask ++ v)) ∨ (∃ u v, t = u ++ (idMask ++ v))) := by
  cases hts : toStr result with
  | none =>
    rw [check_eq_of_none hts] at h
    have h2 := (Prod.mk.injEq _ _ _ _).mp h
    have ht : t = errMsg := (Sum.inr.inj h2.2).symm
    subst ht
    exact ⟨by decide, fun _ => rfl, fun s hs => Option.noConfusion hs⟩
  | some s =>
    obtain ⟨ht, hred⟩ := check_rejected_payload hts h
    have hmask : (∃ u v, t = u ++ (phoneMask ++ v)) ∨ (∃ u v, t = u ++ (idMask ++ v)) := by
      by_cases hq : searchID (if searchPhone s then subPhone s else s) = true
      · obtain ⟨r, hr⟩ := Option.isSome_iff_exists.mp (by simpa [searchID] using hq)
        refine Or.inr ⟨[], r, ?_⟩
        rw [ht, if_pos hq]
        simp only [subID, hr, List.nil_append]
      · have hq' : searchID (if searchPhone s then subPhone s else s) = false := by
          simpa using hq
        have hp : searchPhone s = true := by
          rw [hq', Bool.or_false] at hred
          exact hred
        rw [ht, if_neg hq, if_pos hp]
        exact Or.inl (subPhone_has_mask s hp)
    have hne : t ≠ [] := by
      rcases hmask with ⟨u, v, huv⟩ | ⟨u, v, huv⟩ <;>
        · rw [huv]
          intro hnil
          rw [List.append_eq_nil, List.append_eq_nil] at hnil
          exact absurd hnil.2.1 (by decide)
    exact ⟨hne, fun hn => Option.noConfusion hn, fun s' _ => hmask⟩

theorem claim_C8_witness :
    "****PH.NO****".data ≠ [] ∧
      ((fun u : List Char => some u) "+971 50 1234567".data = none →
        "****PH.NO****".data = errMsg) ∧
      (∀ s, (fun u : List Char => some u) "+971 50 1234567".data = some s →
        (∃ u v, "****PH.NO****".data = u ++ (phoneMask ++ v)) ∨
          (∃ u v, "****PH.NO****".data = u ++ (idMask ++ v))) :=
  claim_C8 (fun u : List Char => some u) "+971 50 1234567".data
    "****PH.NO****".data (by decide)

/-- Claim C9: the national-ID pattern is anchored at both the start and the
end of the string (no MULTILINE), so the matcher hits exactly the strings
that consist entirely of the ID shape, up to a single trailing newline;
ID-shaped substrings preceded or followed by any other text are never
detected. -/
theorem claim_C9 (s : List Char) :
    searchID s = true ↔ ∃ m t, s = m ++ t ∧ idShapeP m ∧ (t = [] ∨ t = ['\n']) := by
  constructor
  · intro h
    obtain ⟨r, hr⟩ := Option.isSome_iff_exists.mp (by simpa [searchID] using h)
    obtain ⟨m, hm, hsh, hrr⟩ := idMatch_shape hr
    exact ⟨m, r, hm, hsh, hrr⟩
  · rintro ⟨m, t, rfl, hsh, ht⟩
    simp [searchID, idShape_of hsh ht]

/-- Claim C10: the guardrail verdict depends only on the string
representation of the input — two results with the same successful
stringification get the same accept flag, and when rejected, identical
payload strings. -/
theorem claim_C10 {α β : Type} (f : α → Option (List Char)) (g : β → Option (List Char))
    (r1 : α) (r2 : β) (s : List Char) (h1 : f r1 = some s) (h2 : g r2 = some s) :
    (check_for_confidential_info f r1).1 = (check_for_confidential_info g r2).1 ∧
      ∀ t, check_for_confidential_info f r1 = (false, Sum.inr t) →
        check_for_confidential_info g r2 = (false, Sum.inr t) := by
  have e1 := check_eq_of_some h1
  have e2 := check_eq_of_some h2
  by_cases hred : (searchPhone s || searchID (if searchPhone s then subPhone s else s)) = true
  · rw [if_pos hred] at e1 e2
    rw [e1, e2]
    refine ⟨rfl, fun t ht => ?_⟩
    have h3 := Sum.inr.inj ((Prod.mk.injEq _ _ _ _).mp ht).2
    rw [h3]
  · rw [if_neg hred] at e1 e2
    rw [e1, e2]
    exact ⟨rfl, fun t ht => absurd (congrArg Prod.fst ht) (by simp)⟩

theorem claim_C10_witness :
    ((check_for_confidential_info (fun u : List Char => some u)
        "+971 55 1234567 x".data).1 =
      (check_for_confidential_info (fun _ : Unit => some "+971 55 1234567 x".data) ()).1) ∧
      ∀ t, check_for_confidential_info (fun u : List Char => some u)
          "+971 55 1234567 x".data = (false, Sum.inr t) →
        check_for_confidential_info (fun _ : Unit => some "+971 55 1234567 x".data) () =
          (false, Sum.inr t) :=
  claim_C10 _ _ _ _ _ rfl rfl
